import Mathlib

/-!
Verification development for the sitemap plugin (gatsby-node.js, utils).

The JavaScript source is shallowly embedded: each JS function that the
claims touch is translated into an executable Lean definition operating on
explicit data (strings as `String` / `List Char`, JS `undefined` as
`Option.none`, thrown exceptions as `Except.error` carrying the message
string).  Theorems then state and settle the specification claims.
-/

/-! Char-list string primitives.

`leadMatch pat s` decides whether `pat` is an initial segment of `s`;
`hasSubAux pat s` decides whether `pat` occurs contiguously inside `s`.
Together they model the JS test `s.indexOf(pat) >= 0`. -/

def leadMatch : List Char → List Char → Bool
  | [], _ => true
  | _ :: _, [] => false
  | p :: ps, c :: cs => p == c && leadMatch ps cs

def hasSubAux (pat : List Char) : List Char → Bool
  | [] => leadMatch pat []
  | c :: cs => leadMatch pat (c :: cs) || hasSubAux pat cs

/-- Model of the JS expression `s.indexOf(pat) >= 0` on whole strings. -/
def containsSub (s pat : String) : Bool :=
  hasSubAux pat.toList s.toList

/-- The property "pat occurs contiguously inside s", stated structurally. -/
def SubstrHolds (pat s : String) : Prop :=
  ∃ l r, s.toList = l ++ pat.toList ++ r

theorem leadMatch_iff (ps : List Char) : ∀ cs, leadMatch ps cs = true ↔ ∃ t, cs = ps ++ t := by
  induction ps with
  | nil =>
    intro cs
    simp [leadMatch]
  | cons p ps ih =>
    intro cs
    cases cs with
    | nil =>
      simp [leadMatch]
    | cons c cs =>
      simp only [leadMatch, Bool.and_eq_true, beq_iff_eq, ih, List.cons_append, List.cons.injEq]
      constructor
      · rintro ⟨rfl, t, rfl⟩
        exact ⟨t, rfl, rfl⟩
      · rintro ⟨t, rfl, rfl⟩
        exact ⟨rfl, t, rfl⟩

theorem hasSubAux_iff (ps : List Char) : ∀ cs, hasSubAux ps cs = true ↔ ∃ l r, cs = l ++ ps ++ r := by
  intro cs
  induction cs with
  | nil =>
    simp only [hasSubAux, leadMatch_iff]
    constructor
    · rintro ⟨t, ht⟩
      rcases List.append_eq_nil.mp ht.symm with ⟨h1, h2⟩
      exact ⟨[], [], by simp [h1, h2]⟩
    · rintro ⟨l, r, h⟩
      have h' := h.symm
      rcases List.append_eq_nil.mp (List.append_eq_nil.mp h').1 with ⟨h1, h2⟩
      exact ⟨[], by simp [h2]⟩
  | cons c cs ih =>
    simp only [hasSubAux, Bool.or_eq_true, leadMatch_iff, ih]
    constructor
    · rintro (⟨t, ht⟩ | ⟨l, r, h⟩)
      · exact ⟨[], t, by simp [ht]⟩
      · exact ⟨c :: l, r, by simp [h]⟩
    · rintro ⟨l, r, h⟩
      cases l with
      | nil =>
        exact Or.inl ⟨r, by simpa using h⟩
      | cons x l =>
        refine Or.inr ⟨l, r, ?_⟩
        have := h
        simp only [List.cons_append] at this
        exact (List.cons.injEq .. ▸ this).2

theorem containsSub_iff (s pat : String) : containsSub s pat = true ↔ SubstrHolds pat s := by
  unfold containsSub SubstrHolds
  exact hasSubAux_iff pat.toList s.toList

/-! Slug and rule normalization, translated from gatsby-node.js lines 196-242.

The source applies `x.replace(/^\/|\/$/, "")` to both the slug and a
literal-string exclusion rule.  The regex has no `g` flag, so `replace`
rewrites only the leftmost match: a leading slash when present, otherwise a
trailing slash when present.  `stripTrail` removes one trailing '/',
`jsStripSlash` is the whole `replace` call. -/

def stripTrail : List Char → List Char
  | [] => []
  | [c] => if c == '/' then [] else [c]
  | c :: c2 :: rest => c :: stripTrail (c2 :: rest)

def jsStripSlash (cs : List Char) : List Char :=
  match cs with
  | [] => []
  | c :: rest => if c == '/' then rest else stripTrail (c :: rest)

/-- Modelled from the spec's words, for comparison with the source behavior
(claim C5): "the normalized slug (leading/trailing slashes stripped)" —
strip a leading slash AND a trailing slash. -/
def stripBothSlashes (cs : List Char) : List Char :=
  match cs with
  | [] => stripTrail []
  | c :: rest => if c == '/' then stripTrail rest else stripTrail (c :: rest)

/-- Modelled from the spec's words (claim C5): a record is excluded by a
literal rule when the spec-normalized slug contains the spec-normalized
rule as a substring. -/
def specLiteralExcluded (slug rule : String) : Bool :=
  hasSubAux (stripBothSlashes rule.toList) (stripBothSlashes slug.toList)

/-! The record shape consumed by the exclusion filter: a GraphQL node with
a `slug`, an optional `fields.slug`, and an optional `__typename`.
JS `undefined` fields are `Option.none`; an empty string is falsy in JS,
which the truthiness tests below reproduce. -/

structure JsNode where
  slug : String
  fieldsSlug : Option String := none
  typename : Option String := none
deriving DecidableEq, Repr

/-- Source expression `node.__typename ? ("all" + node.__typename) : sourceKey` (lines 200-202). -/
def nodeSourceType (sourceKey : String) (node : JsNode) : String :=
  match node.typename with
  | some t => if t != "" then "all" ++ t else sourceKey
  | none => sourceKey

/-- The slug selection of lines 203-208: markdown-flavored nodes (or nodes
with a truthy `fields.slug`) read `node.fields.slug`, others `node.slug`;
either way one boundary slash is stripped.  Accessing `fields.slug` on a
node without it is a JS `TypeError`, modeled as `Except.error`. -/
def nodeSlug (sourceKey : String) (node : JsNode) : Except String (List Char) :=
  let st := nodeSourceType sourceKey node
  if st == "allMarkdownRemark" || st == "allMdx" || node.fieldsSlug.getD "" != "" then
    match node.fieldsSlug with
    | some s => Except.ok (jsStripSlash s.toList)
    | none => Except.error "TypeError: Cannot read properties of undefined"
  else
    Except.ok (jsStripSlash node.slug.toList)

/-- A regular-expression exclusion rule, abstracted: `valid` says whether
`new RegExp(rule)` succeeds, `test` is the match function on the slug. -/
structure RegexRule where
  valid : Bool
  test : List Char → Bool

/-- One entry of the `exclude` option: a literal route string, a regular
expression, or a predicate function over the raw node (which may throw). -/
inductive ExcludeRule where
  | literal (route : String)
  | regex (r : RegexRule)
  | predicate (f : JsNode → Except String Bool)

/-- One evaluation of the `exclude.some` callback (lines 199-240): compute
the normalized slug, normalize a string rule, then dispatch on the rule
kind.  An invalid regular expression throws
"Excluded route is not a valid RegExp: " at this point (lines 229-234);
a predicate is applied to the raw node and its exception propagates. -/
def evalRule (sourceKey : String) (rule : ExcludeRule) (node : JsNode) : Except String Bool := do
  let slug ← nodeSlug sourceKey node
  match rule with
  | ExcludeRule.predicate f => f node
  | ExcludeRule.regex r =>
    if r.valid then
      Except.ok (r.test slug)
    else
      Except.error "Excluded route is not a valid RegExp: "
  | ExcludeRule.literal route =>
    Except.ok (hasSubAux (jsStripSlash route.toList) slug)

/-- Source expression `exclude.some(...)`: rules are tried in order and
evaluation short-circuits on the first rule that returns true. -/
def anyRuleExcludes (sourceKey : String) (rules : List ExcludeRule) (node : JsNode) : Except String Bool :=
  match rules with
  | [] => Except.ok false
  | r :: rs => do
    let b ← evalRule sourceKey r node
    if b then Except.ok true else anyRuleExcludes sourceKey rs node

/-- Source expression `edges.filter((x) => !exclude.some(...))` at lines
197-241: keep the nodes no rule excludes; an exception thrown while testing
a node aborts the whole filter. -/
def filterExcludedEdges (sourceKey : String) (rules : List ExcludeRule) : List JsNode → Except String (List JsNode)
  | [] => Except.ok []
  | n :: ns => do
    let ex ← anyRuleExcludes sourceKey rules n
    let rest ← filterExcludedEdges sourceKey rules ns
    Except.ok (if ex then rest else n :: rest)

/-! Paginated query runner, translated from gatsby-node.js lines 50-159.

A GraphQL response for one query key is `r.data?.[queryKey]`, an object
with an `edges` list and a `pageInfo.hasNextPage` flag; JS `undefined`
data is `Option.none`.  A handler call either resolves or rejects
(`Except.error`).  The recursive pager `fetchPages` is driven by the
sequence of responses the data source would give for skip = 0, n, 2n, ...;
that sequence is finite, which is what makes the recursion structural. -/

structure PageData (α : Type) where
  edges : List α
  hasNextPage : Bool
deriving DecidableEq, Repr

structure QueryParams where
  limit : Nat
  skip : Nat
deriving DecidableEq, Repr

/-- One request issued to the GraphQL handler: the query string and, in
paged mode, the `{limit, skip}` variables (`none` = unpaginated call). -/
structure JsRequest where
  queryString : String
  params : Option QueryParams
deriving DecidableEq, Repr

def pagedRequest (qs : String) (n c : Nat) : JsRequest :=
  { queryString := qs, params := some { limit := n, skip := c * n } }

/-- Lines 83-90: the recursive result's edges are concatenated onto the
current page's edges only when BOTH lists are non-empty; otherwise the
current page is returned unchanged. -/
def mergePages {α : Type} (tempData : PageData α) (tempDataMore : Option (PageData α)) : PageData α :=
  match tempDataMore with
  | some m =>
    if !tempData.edges.isEmpty && !m.edges.isEmpty then
      { tempData with edges := tempData.edges ++ m.edges }
    else
      tempData
  | none => tempData

/-- The inner `fetchPages` recursion of `splitQueryInSmallerBatches`
(lines 62-94), instrumented with the list of requests it issues.  Page
number `c` is requested with `skip = c * itemsPerPage`; paging continues
while the response reports `pageInfo.hasNextPage`; a rejected request
propagates as an error (caught later by the fallback, lines 97-103). -/
def fetchPagesT {α : Type} (qs : String) (n : Nat) :
    List (Except String (Option (PageData α))) → Nat →
    List JsRequest × Except String (Option (PageData α))
  | [], c => ([pagedRequest qs n c], Except.ok none)
  | r :: rest, c =>
    match r with
    | Except.error e => ([pagedRequest qs n c], Except.error e)
    | Except.ok none => ([pagedRequest qs n c], Except.ok none)
    | Except.ok (some tempData) =>
      if tempData.hasNextPage then
        (pagedRequest qs n c :: (fetchPagesT qs n rest (c + 1)).fst,
         Except.map (fun more => some (mergePages tempData more)) (fetchPagesT qs n rest (c + 1)).snd)
      else
        ([pagedRequest qs n c], Except.ok (some tempData))

/-- The pagination-marker test of `runQueriesSequentially` (lines 130-137):
all five `indexOf(...) > -1` checks on the query string. -/
def usesPagination (queryString : String) : Bool :=
  containsSub queryString "hasNextPage" &&
  containsSub queryString "$limit:" &&
  containsSub queryString "$skip:" &&
  containsSub queryString "limit: $limit" &&
  containsSub queryString "skip: $skip" 

/-- One query of the sequential runner, instrumented with its request
trace: marker queries go through `splitQueryInSmallerBatches` (paged
requests, then on any error one unpaginated fallback request, lines
97-103); all other queries issue exactly one unpaginated request
(lines 145-149). -/
def runOneQueryT {α : Type} (qs : String) (splitQueryPageSize : Nat)
    (pagedResponses : List (Except String (Option (PageData α))))
    (singleResponse : Except String (Option (PageData α))) :
    List JsRequest × Except String (Option (PageData α)) :=
  if usesPagination qs then
    match (fetchPagesT qs splitQueryPageSize pagedResponses 0).snd with
    | Except.ok d => ((fetchPagesT qs splitQueryPageSize pagedResponses 0).fst, Except.ok d)
    | Except.error _ =>
      ((fetchPagesT qs splitQueryPageSize pagedResponses 0).fst ++ [{ queryString := qs, params := none }],
       singleResponse)
  else
    ([{ queryString := qs, params := none }], singleResponse)

/-- The external GraphQL handler, modeled by the responses it would give a
query: the finite response sequence of the paged protocol, and the
response of a single unpaginated call. -/
structure HandlerModel (α : Type) where
  paged : String → List (Except String (Option (PageData α)))
  single : String → Except String (Option (PageData α))

/-- The body of the `for (const item of queries)` loop (lines 127-153),
accumulating `responsesObject` in order; any uncaught error aborts the
remaining queries.  The fixed 1-second delay between queries has no
observable effect on the data and is not modeled. -/
def runQueriesSeqGo {α : Type} (h : HandlerModel α) (splitQueryPageSize : Nat) :
    List (String × String) → Except String (List (String × Option (PageData α)))
  | [] => Except.ok []
  | (queryKey, queryString) :: rest => do
    let d ← (runOneQueryT queryString splitQueryPageSize (h.paged queryString) (h.single queryString)).snd
    let r ← runQueriesSeqGo h splitQueryPageSize rest
    Except.ok ((queryKey, d) :: r)

/-- Line 157, `throw new Error(error)`: the escaping error is rethrown as a
new Error whose message is the string form of the original. -/
def seqWrap (e : String) : String := "Error: " ++ e

/-- Whole `runQueriesSequentially` (lines 110-159): run all queries in
order, and rethrow any escaping error via `throw new Error(error)`. -/
def runQueriesSequentially {α : Type} (h : HandlerModel α) (splitQueryPageSize : Nat)
    (queries : List (String × String)) : Except String (List (String × Option (PageData α))) :=
  match runQueriesSeqGo h splitQueryPageSize queries with
  | Except.ok l => Except.ok l
  | Except.error e => Except.error (seqWrap e)

/-- Shape hypothesis of claim C2 on a simulated paged source: at least one
page, every page up to the last reports `hasNextPage`, the last does not. -/
def wellPaged {α : Type} : List (PageData α) → Bool
  | [] => false
  | p :: rest =>
    match rest with
    | [] => !p.hasNextPage
    | _ :: _ => p.hasNextPage && wellPaged rest

/-! Per-source processing of `runQuery` (lines 178-243): the custom
serializer step followed by the exclusion filter.  One query result
(`sources[sourceKey]`) is an optional object whose `edges` property is
either a JS array (`some list`) or not an array / undefined (`none`). -/

structure SourceData where
  edges : Option (List JsNode)
deriving DecidableEq, Repr

/-- The serializer step (lines 179-193), instrumented with the list of
argument lists the serializer was invoked on.  A configured serializer is
called when the source exists and its `edges` is an array; returning a
non-array (`none`) throws; otherwise its return value replaces `edges`. -/
def serializeStep (serializer : Option (List JsNode → Option (List JsNode))) (src : Option SourceData) :
    Except String (Option SourceData × List (List JsNode)) :=
  match serializer, src with
  | some f, some s =>
    match s.edges with
    | some es =>
      match f es with
      | some out => Except.ok (some { edges := some out }, [es])
      | none => Except.error "Custom sitemap serializer must return an array"
    | none => Except.ok (some s, [])
  | _, _ => Except.ok (src, [])

/-- The exclusion step (lines 196-242): filter the edges when they form a
non-empty array, otherwise leave the source untouched. -/
def filterStep (sourceKey : String) (rules : List ExcludeRule) (src : Option SourceData) :
    Except String (Option SourceData) :=
  match src with
  | some s =>
    match s.edges with
    | some es =>
      if es.length != 0 then
        Except.map (fun fs => some { edges := some fs }) (filterExcludedEdges sourceKey rules es)
      else
        Except.ok (some s)
    | none => Except.ok (some s)
  | none => Except.ok none

/-- Processing of one source inside `runQuery`: serializer step, then
exclusion step, keeping the serializer invocation trace. -/
def processSourceT (serializer : Option (List JsNode → Option (List JsNode)))
    (rules : List ExcludeRule) (sourceKey : String) (src : Option SourceData) :
    Except String (Option SourceData × List (List JsNode)) :=
  match serializeStep serializer src with
  | Except.error e => Except.error e
  | Except.ok (src1, calls) =>
    match filterStep sourceKey rules src1 with
    | Except.error e => Except.error e
    | Except.ok src2 => Except.ok (src2, calls)

def processSource (serializer : Option (List JsNode → Option (List JsNode)))
    (rules : List ExcludeRule) (sourceKey : String) (src : Option SourceData) :
    Except String (Option SourceData) :=
  Except.map Prod.fst (processSourceT serializer rules sourceKey src)

/-- The `Object.keys(sources).forEach(...)` loop of `runQuery` (lines
178-243): process each source in order; an uncaught exception aborts the
loop and propagates out of `runQuery` unchanged. -/
def runQuerySources (mapping : String → Option (List JsNode → Option (List JsNode)))
    (rules : List ExcludeRule) :
    List (String × Option SourceData) → Except String (List (String × Option SourceData))
  | [] => Except.ok []
  | (sourceKey, src) :: rest =>
    match processSource (mapping sourceKey) rules sourceKey src with
    | Except.error e => Except.error e
    | Except.ok s =>
      match runQuerySources mapping rules rest with
      | Except.error e => Except.error e
      | Except.ok others => Except.ok ((sourceKey, s) :: others)

/-- The catch in `onPostBuild` around the custom query (lines 422-428):
an error escaping `runQuery` is rethrown as a new Error whose message
prefixes the original with "Something went wrong running custom query: ". -/
def wrapCustomQueryError (e : String) : String :=
  "Something went wrong running custom query: " ++ e

/-- The custom-query phase of `onPostBuild`: the result of `runQuery`, with
any escaping error wrapped by the catch of lines 422-428. -/
def onPostBuildCustomQuery {α : Type} (res : Except String α) : Except String α :=
  match res with
  | Except.ok v => Except.ok v
  | Except.error e => Except.error (wrapCustomQueryError e)

/-! The pages-bucket deduplication of `serialize` (lines 354-362):
`nodes[0].pages = uniqBy(nodes[0].pages, "url")`.  A pages entry is the
object `{url, node}` pushed at lines 328-332; only `url` matters to the
dedup, `nodeId` stands for the rest of the object and keeps distinct
entries distinguishable. -/

structure SourceEntry where
  url : String
  nodeId : Nat
deriving DecidableEq, Repr

/-- Lodash `uniqBy(list, "url")`: walk the list keeping a set of already
seen url keys; an entry is kept iff its url has not been seen before. -/
def uniqByUrlAux (seen : List String) : List SourceEntry → List SourceEntry
  | [] => []
  | e :: es =>
    if e.url ∈ seen then
      uniqByUrlAux seen es
    else
      e :: uniqByUrlAux (e.url :: seen) es

def uniqByUrl (l : List SourceEntry) : List SourceEntry :=
  uniqByUrlAux [] l

/-- Line 356: the pages bucket after `uniqBy(nodes[0].pages, "url")`; the
deduplicated list is then fed entry by entry to `manager.addUrls` in order
(lines 358-361). -/
def pagesBucket (pages : List SourceEntry) : List SourceEntry :=
  uniqByUrl pages

/-! The utility `withoutTrailingSlash` (utils, lines 4-6).  Its JS body is
the single expression statement
`path === "/" ? path : path.replace(/\/$/, "");` with no `return`, so the
function's value is always `undefined` (`none`); the conditional's value is
computed and discarded. -/

def withoutTrailingSlashBodyExpr (path : String) : String :=
  if path == "/" then path else String.mk (stripTrail path.toList)

def withoutTrailingSlash (path : String) : Option String :=
  let _ := withoutTrailingSlashBodyExpr path
  none

/-! Theorems.  Helper lemmas first, then one theorem per claim. -/

theorem uniqByUrlAux_sublist (l : List SourceEntry) :
    ∀ seen, List.Sublist (uniqByUrlAux seen l) l := by
  induction l with
  | nil =>
    intro seen
    simp [uniqByUrlAux]
  | cons e es ih =>
    intro seen
    by_cases h : e.url ∈ seen
    · simp only [uniqByUrlAux, if_pos h]
      exact List.Sublist.cons e (ih seen)
    · simp only [uniqByUrlAux, if_neg h]
      exact List.Sublist.cons₂ e (ih (e.url :: seen))

theorem uniqByUrlAux_find (l : List SourceEntry) :
    ∀ seen, ∀ x ∈ uniqByUrlAux seen l,
      x.url ∉ seen ∧ List.find? (fun y => y.url == x.url) l = some x := by
  induction l with
  | nil =>
    intro seen x hx
    simp [uniqByUrlAux] at hx
  | cons e es ih =>
    intro seen x hx
    by_cases h : e.url ∈ seen
    · simp only [uniqByUrlAux, if_pos h] at hx
      obtain ⟨hns, hf⟩ := ih seen x hx
      have hne : e.url ≠ x.url := fun hEq => hns (hEq ▸ h)
      refine ⟨hns, ?_⟩
      rw [List.find?_cons_of_neg, hf]
      simpa using hne
    · simp only [uniqByUrlAux, if_neg h] at hx
      rcases List.mem_cons.mp hx with hx | hx
      · subst hx
        refine ⟨h, ?_⟩
        rw [List.find?_cons_of_pos]
        simp
      · obtain ⟨hns, hf⟩ := ih (e.url :: seen) x hx
        have hne : e.url ≠ x.url := fun hEq => hns (by simp [hEq])
        have hns' : x.url ∉ seen := fun hIn => hns (by simp [hIn])
        refine ⟨hns', ?_⟩
        rw [List.find?_cons_of_neg, hf]
        simpa using hne

theorem uniqByUrlAux_covers (l : List SourceEntry) :
    ∀ seen, ∀ x ∈ l, x.url ∈ seen ∨ ∃ y ∈ uniqByUrlAux seen l, y.url = x.url := by
  induction l with
  | nil =>
    intro seen x hx
    simp at hx
  | cons e es ih =>
    intro seen x hx
    by_cases h : e.url ∈ seen
    · simp only [uniqByUrlAux, if_pos h]
      rcases List.mem_cons.mp hx with hx | hx
      · exact Or.inl (hx ▸ h)
      · exact ih seen x hx
    · simp only [uniqByUrlAux, if_neg h]
      rcases List.mem_cons.mp hx with hx | hx
      · exact Or.inr ⟨e, by simp, by rw [hx]⟩
      · rcases ih (e.url :: seen) x hx with hIn | ⟨y, hy, hyu⟩
        · rcases List.mem_cons.mp hIn with hEq | hIn'
          · exact Or.inr ⟨e, by simp, hEq.symm⟩
          · exact Or.inl hIn'
        · exact Or.inr ⟨y, by simp [hy], hyu⟩

theorem uniqByUrlAux_pairwise (l : List SourceEntry) :
    ∀ seen, (uniqByUrlAux seen l).Pairwise (fun a b => a.url ≠ b.url) := by
  induction l with
  | nil =>
    intro seen
    simp [uniqByUrlAux]
  | cons e es ih =>
    intro seen
    by_cases h : e.url ∈ seen
    · simpa only [uniqByUrlAux, if_pos h] using ih seen
    · simp only [uniqByUrlAux, if_neg h]
      refine List.Pairwise.cons ?_ (ih (e.url :: seen))
      intro b hb
      have := (uniqByUrlAux_find es (e.url :: seen) b hb).1
      intro hEq
      exact this (by simp [hEq])

/-- Claim C1: the pages bucket, deduplicated via `uniqBy(..., "url")`
(gatsby-node.js line 356), retains for each URL exactly the first-inserted
entry — the result is a subsequence of the input (insertion order of first
occurrences preserved), every retained entry is the first entry of the
input carrying its url, every inserted url is still represented, and no
two retained entries share a url. -/
theorem c1_pages_bucket_dedup (l : List SourceEntry) :
    List.Sublist (pagesBucket l) l
    ∧ (∀ x ∈ pagesBucket l, List.find? (fun y => y.url == x.url) l = some x)
    ∧ (∀ x ∈ l, ∃ y ∈ pagesBucket l, y.url = x.url)
    ∧ (pagesBucket l).Pairwise (fun a b => a.url ≠ b.url) := by
  refine ⟨uniqByUrlAux_sublist l [], ?_, ?_, uniqByUrlAux_pairwise l []⟩
  · intro x hx
    exact (uniqByUrlAux_find l [] x hx).2
  · intro x hx
    rcases uniqByUrlAux_covers l [] x hx with hIn | h
    · simp at hIn
    · exact h

/-- Witness for C1 at a concrete bucket: of the two entries sharing url
"u", the first-inserted one is what the bucket retains. -/
theorem c1_pages_bucket_dedup_witness :
    List.find? (fun y => y.url == SourceEntry.url ⟨"u", 1⟩)
      [(⟨"u", 1⟩ : SourceEntry), ⟨"u", 2⟩, ⟨"v", 3⟩] = some ⟨"u", 1⟩ :=
  (c1_pages_bucket_dedup [⟨"u", 1⟩, ⟨"u", 2⟩, ⟨"v", 3⟩]).2.1 ⟨"u", 1⟩ (by decide)

/-- Claim C10: `withoutTrailingSlash` (utils lines 4-6) returns undefined
for every input string — its body never returns the value of its
conditional expression, although that expression does compute the
slash-stripped string (shown at the concrete input "abc/"). -/
theorem c10_without_trailing_slash_undefined :
    (∀ path : String, withoutTrailingSlash path = none)
    ∧ withoutTrailingSlashBodyExpr "abc/" = "abc" :=
  ⟨fun _ => rfl, by decide⟩

/-- Counterexample to claim C5 as stated, at slug "/ab" and rule "/b/":
with leading AND trailing slashes stripped (the claim's normalization) the
slug "ab" contains the rule "b", so the claim says the record is excluded;
but the source strips only the leftmost boundary slash
(`replace(/^\/|\/$/, "")` without the `g` flag), leaving the rule as "b/",
which "ab" does not contain — the code does not exclude the record. -/
theorem c5_literal_normalization_counterexample :
    specLiteralExcluded "/ab" "/b/" = true
    ∧ evalRule "allGhostPost" (ExcludeRule.literal "/b/") { slug := "/ab" } = Except.ok false :=
  ⟨rfl, rfl⟩

/-- Claim C5 as amended: for a record whose slug comes from `node.slug`
(no `__typename`, no `fields.slug`, not a markdown source), a literal
string rule excludes the record if and only if the slug normalized by the
source's `replace(/^\/|\/$/, "")` — which strips the leading slash when
present, otherwise the trailing slash — contains the rule normalized the
same way as a contiguous substring. -/
theorem c5_literal_contains_amended (sourceKey route : String) (node : JsNode)
    (h1 : node.typename = none) (h2 : node.fieldsSlug = none)
    (h3 : sourceKey ≠ "allMarkdownRemark") (h4 : sourceKey ≠ "allMdx") :
    evalRule sourceKey (ExcludeRule.literal route) node = Except.ok true ↔
      ∃ l r, jsStripSlash node.slug.toList = l ++ jsStripSlash route.toList ++ r := by
  have hst : nodeSourceType sourceKey node = sourceKey := by
    simp [nodeSourceType, h1]
  have hslug : nodeSlug sourceKey node = Except.ok (jsStripSlash node.slug.toList) := by
    unfold nodeSlug
    rw [hst]
    have e3 : (sourceKey == "allMarkdownRemark") = false := by
      simpa using h3
    have e4 : (sourceKey == "allMdx") = false := by
      simpa using h4
    simp [e3, e4, h2]
  have hlit : evalRule sourceKey (ExcludeRule.literal route) node =
      Except.ok (hasSubAux (jsStripSlash route.toList) (jsStripSlash node.slug.toList)) := by
    unfold evalRule
    rw [hslug]
    rfl
  rw [hlit]
  simp only [Except.ok.injEq]
  exact hasSubAux_iff (jsStripSlash route.toList) (jsStripSlash node.slug.toList)

/-- Witness for the amended C5 at slug "/ab/" and rule "b": the normalized
slug is "ab/" and it contains "b". -/
theorem c5_literal_contains_amended_witness :
    evalRule "allGhostPost" (ExcludeRule.literal "b") { slug := "/ab/" } = Except.ok true :=
  (c5_literal_contains_amended "allGhostPost" "b" { slug := "/ab/" }
    rfl rfl (by decide) (by decide)).mpr ⟨['a'], ['/'], by decide⟩

theorem evalRule_regex_invalid (sourceKey : String) (r : RegexRule) (n : JsNode) (s : List Char)
    (hs : nodeSlug sourceKey n = Except.ok s) (hv : r.valid = false) :
    evalRule sourceKey (ExcludeRule.regex r) n = Except.error "Excluded route is not a valid RegExp: " := by
  unfold evalRule
  rw [hs]
  show (if r.valid = true then Except.ok (r.test s)
        else Except.error "Excluded route is not a valid RegExp: ") = _
  rw [hv]
  simp

theorem evalRule_predicate_err (sourceKey : String) (f : JsNode → Except String Bool) (n : JsNode)
    (s : List Char) (e : String)
    (hs : nodeSlug sourceKey n = Except.ok s) (hf : f n = Except.error e) :
    evalRule sourceKey (ExcludeRule.predicate f) n = Except.error e := by
  unfold evalRule
  rw [hs]
  exact hf

theorem anyRuleExcludes_reaches_error (sourceKey : String) (n : JsNode) (e : String)
    (rule0 : ExcludeRule) (post : List ExcludeRule)
    (h0 : evalRule sourceKey rule0 n = Except.error e) :
    ∀ pre : List ExcludeRule, (∀ rule ∈ pre, evalRule sourceKey rule n = Except.ok false) →
      anyRuleExcludes sourceKey (pre ++ rule0 :: post) n = Except.error e := by
  intro pre
  induction pre with
  | nil =>
    intro _
    show anyRuleExcludes sourceKey (rule0 :: post) n = Except.error e
    unfold anyRuleExcludes
    rw [h0]
    rfl
  | cons p pre ih =>
    intro hpre
    have hp : evalRule sourceKey p n = Except.ok false := hpre p (by simp)
    show anyRuleExcludes sourceKey (p :: (pre ++ rule0 :: post)) n = Except.error e
    unfold anyRuleExcludes
    rw [hp]
    exact ih fun rule hr => hpre rule (by simp [hr])

theorem filterExcludedEdges_head_error (sourceKey : String) (rules : List ExcludeRule)
    (n : JsNode) (rest : List JsNode) (e : String)
    (h : anyRuleExcludes sourceKey rules n = Except.error e) :
    filterExcludedEdges sourceKey rules (n :: rest) = Except.error e := by
  unfold filterExcludedEdges
  rw [h]
  rfl

/-- Counterexample to claim C6 as stated: a configuration whose exclusion
list holds an invalid regular expression rule (after a literal rule
matching every slug) processes its one record, excludes it via the earlier
rule, and raises no error at all — the invalid expression is never even
evaluated, because `exclude.some` short-circuits per record. -/
theorem c6_invalid_regex_counterexample :
    filterExcludedEdges "allGhostPost"
      [ExcludeRule.literal "", ExcludeRule.regex { valid := false, test := fun _ => false }]
      [{ slug := "/a" }] = Except.ok [] := rfl

/-- Claim C6 as amended: an invalid regular-expression rule raises the
fatal error "Excluded route is not a valid RegExp: " only when it is first
evaluated against some record — that is, at the first record of the edge
list that no earlier rule in the exclusion list already excludes (the
validity check sits inside the per-record filter callback, lines 220-236),
not before records are processed. -/
theorem c6_invalid_regex_lazy_amended (sourceKey : String) (pre post : List ExcludeRule)
    (r : RegexRule) (n : JsNode) (rest : List JsNode) (s : List Char)
    (hv : r.valid = false)
    (hs : nodeSlug sourceKey n = Except.ok s)
    (hpre : ∀ rule ∈ pre, evalRule sourceKey rule n = Except.ok false) :
    filterExcludedEdges sourceKey (pre ++ ExcludeRule.regex r :: post) (n :: rest) =
      Except.error "Excluded route is not a valid RegExp: " :=
  filterExcludedEdges_head_error sourceKey _ n rest _
    (anyRuleExcludes_reaches_error sourceKey n _ (ExcludeRule.regex r) post
      (evalRule_regex_invalid sourceKey r n s hs hv) pre hpre)

/-- Witness for the amended C6: one record, one invalid regex rule; the
error is raised while the record is being filtered. -/
theorem c6_invalid_regex_lazy_amended_witness :
    filterExcludedEdges "allGhostPost"
      [ExcludeRule.regex { valid := false, test := fun _ => false }]
      [{ slug := "a" }] = Except.error "Excluded route is not a valid RegExp: " :=
  c6_invalid_regex_lazy_amended "allGhostPost" [] []
    { valid := false, test := fun _ => false } { slug := "a" } [] ['a']
    rfl rfl (fun rule hr => absurd hr (List.not_mem_nil rule))

theorem filterStep_error (sourceKey : String) (rules : List ExcludeRule)
    (nd : JsNode) (more : List JsNode) (e : String)
    (hfe : filterExcludedEdges sourceKey rules (nd :: more) = Except.error e) :
    filterStep sourceKey rules (some { edges := some (nd :: more) }) = Except.error e := by
  have hlen : ((nd :: more).length != 0) = true := by simp
  simp only [filterStep, hlen, if_true, hfe]
  rfl

theorem processSource_no_serializer_error (sourceKey : String) (rules : List ExcludeRule)
    (nd : JsNode) (more : List JsNode) (e : String)
    (hfe : filterExcludedEdges sourceKey rules (nd :: more) = Except.error e) :
    processSource none rules sourceKey (some { edges := some (nd :: more) }) = Except.error e := by
  unfold processSource processSourceT
  show Except.map Prod.fst
      (match filterStep sourceKey rules (some { edges := some (nd :: more) }) with
       | Except.error e => Except.error e
       | Except.ok src2 => Except.ok (src2, ([] : List (List JsNode)))) = Except.error e
  rw [filterStep_error sourceKey rules nd more e hfe]
  rfl

theorem runQuerySources_head_error (mapping : String → Option (List JsNode → Option (List JsNode)))
    (rules : List ExcludeRule) (sourceKey : String) (src : Option SourceData)
    (others : List (String × Option SourceData)) (e : String)
    (hp : processSource (mapping sourceKey) rules sourceKey src = Except.error e) :
    runQuerySources mapping rules ((sourceKey, src) :: others) = Except.error e := by
  unfold runQuerySources
  rw [hp]

/-- Counterexample to claim C7 as stated, at a predicate throwing "boom":
the error that leaves the build step is the WRAPPED message
"Something went wrong running custom query: boom" — not the original
exception — because `onPostBuild` catches errors escaping `runQuery` and
rethrows them with the query-phase prefix (lines 422-428). -/
theorem c7_predicate_error_counterexample :
    onPostBuildCustomQuery (runQuerySources (fun _ => none)
        [ExcludeRule.predicate (fun _ => Except.error "boom")]
        [("posts", some { edges := some [{ slug := "a" }] })]) =
      Except.error "Something went wrong running custom query: boom"
    ∧ "Something went wrong running custom query: boom" ≠ "boom" :=
  ⟨rfl, by decide⟩

/-- Claim C7 as amended: an exception thrown by a predicate exclusion rule
is not swallowed — it aborts filtering and propagates unchanged out of the
per-record filter and out of the whole `runQuery` source loop, so the build
step fails; but the build step's catch rethrows it WRAPPED in a new error
whose message prefixes the original with the query phase, so the error that
aborts the build is not the unmodified exception. -/
theorem c7_predicate_error_wrapped_amended (sourceKey : String) (pre post : List ExcludeRule)
    (f : JsNode → Except String Bool) (e : String) (n : JsNode) (more : List JsNode)
    (s : List Char) (mapping : String → Option (List JsNode → Option (List JsNode)))
    (others : List (String × Option SourceData))
    (hf : f n = Except.error e)
    (hs : nodeSlug sourceKey n = Except.ok s)
    (hpre : ∀ rule ∈ pre, evalRule sourceKey rule n = Except.ok false)
    (hm : mapping sourceKey = none) :
    filterExcludedEdges sourceKey (pre ++ ExcludeRule.predicate f :: post) (n :: more) = Except.error e
    ∧ runQuerySources mapping (pre ++ ExcludeRule.predicate f :: post)
        ((sourceKey, some { edges := some (n :: more) }) :: others) = Except.error e
    ∧ onPostBuildCustomQuery (runQuerySources mapping (pre ++ ExcludeRule.predicate f :: post)
        ((sourceKey, some { edges := some (n :: more) }) :: others)) =
        Except.error (wrapCustomQueryError e)
    ∧ wrapCustomQueryError e ≠ e := by
  have hFil : filterExcludedEdges sourceKey (pre ++ ExcludeRule.predicate f :: post) (n :: more) =
      Except.error e :=
    filterExcludedEdges_head_error sourceKey _ n more e
      (anyRuleExcludes_reaches_error sourceKey n e (ExcludeRule.predicate f) post
        (evalRule_predicate_err sourceKey f n s e hs hf) pre hpre)
  have hRun : runQuerySources mapping (pre ++ ExcludeRule.predicate f :: post)
      ((sourceKey, some { edges := some (n :: more) }) :: others) = Except.error e := by
    refine runQuerySources_head_error mapping _ sourceKey _ others e ?_
    rw [hm]
    exact processSource_no_serializer_error sourceKey _ n more e hFil
  refine ⟨hFil, hRun, ?_, ?_⟩
  · rw [hRun]
    rfl
  · intro hEq
    have hLen := congrArg String.length hEq
    unfold wrapCustomQueryError at hLen
    have h43 : ("Something went wrong running custom query: ").length = 43 := rfl
    rw [String.length_append, h43] at hLen
    omega

/-- Witness for the amended C7 at a concrete throwing predicate. -/
theorem c7_predicate_error_wrapped_amended_witness :
    filterExcludedEdges "posts" [ExcludeRule.predicate (fun _ => Except.error "boom")]
      [{ slug := "a" }] = Except.error "boom" :=
  (c7_predicate_error_wrapped_amended "posts" [] [] (fun _ => Except.error "boom") "boom"
    { slug := "a" } [] ['a'] (fun _ => none) [] rfl rfl
    (fun rule hr => absurd hr (List.not_mem_nil rule)) rfl).1

/-- Claim C8: for a source with a configured custom serializer and an edge
array, the serializer is invoked exactly once with the full raw edge list
(the invocation trace is `[es]`), its array return value replaces the edge
list before the per-record steps (the exclusion filter — and hence the
later per-record normalization in `serialize` — runs on the serializer
output, not on the raw edges), and a non-array return raises the fatal
error "Custom sitemap serializer must return an array" (lines 178-193). -/
theorem c8_serializer_once (f : List JsNode → Option (List JsNode)) (rules : List ExcludeRule)
    (sourceKey : String) (es : List JsNode) :
    (∀ out, f es = some out →
      processSourceT (some f) rules sourceKey (some { edges := some es }) =
        Except.map (fun src2 => (src2, [es])) (filterStep sourceKey rules (some { edges := some out })))
    ∧ (f es = none →
      processSourceT (some f) rules sourceKey (some { edges := some es }) =
        Except.error "Custom sitemap serializer must return an array") := by
  constructor
  · intro out hout
    simp only [processSourceT, serializeStep, hout]
    cases filterStep sourceKey rules (some { edges := some out }) with
    | error e => rfl
    | ok src2 => rfl
  · intro hnone
    simp only [processSourceT, serializeStep, hnone]

/-- Witness for C8: a serializer that duplicates the edge list is invoked
once on the raw edges and its output feeds the filter step. -/
theorem c8_serializer_once_witness :
    processSourceT (some (fun l => some (l ++ l))) [] "posts"
        (some { edges := some [{ slug := "a" }] }) =
      Except.map (fun src2 => (src2, [[({ slug := "a" } : JsNode)]]))
        (filterStep "posts" []
          (some { edges := some [{ slug := "a" }, { slug := "a" }] })) :=
  (c8_serializer_once (fun l => some (l ++ l)) [] "posts" [{ slug := "a" }]).1
    [{ slug := "a" }, { slug := "a" }] rfl

theorem isEmpty_false_of_ne_nil {α : Type} {l : List α} (h : l ≠ []) : l.isEmpty = false := by
  cases l with
  | nil => exact absurd rfl h
  | cons a as => rfl

theorem fetchPagesT_cons_next {α : Type} (qs : String) (n : Nat) (p : PageData α)
    (L : List (Except String (Option (PageData α)))) (c : Nat) (hp : p.hasNextPage = true) :
    fetchPagesT qs n (Except.ok (some p) :: L) c =
      (pagedRequest qs n c :: (fetchPagesT qs n L (c + 1)).fst,
       Except.map (fun more => some (mergePages p more)) (fetchPagesT qs n L (c + 1)).snd) := by
  simp [fetchPagesT, hp]

theorem fetchPagesT_cons_last {α : Type} (qs : String) (n : Nat) (p : PageData α)
    (L : List (Except String (Option (PageData α)))) (c : Nat) (hp : p.hasNextPage = false) :
    fetchPagesT qs n (Except.ok (some p) :: L) c = ([pagedRequest qs n c], Except.ok (some p)) := by
  simp [fetchPagesT, hp]

theorem fetchPagesT_cons_error {α : Type} (qs : String) (n : Nat) (e : String)
    (L : List (Except String (Option (PageData α)))) (c : Nat) :
    fetchPagesT (α := α) qs n (Except.error e :: L) c = ([pagedRequest qs n c], Except.error e) := by
  simp [fetchPagesT]

theorem fetchPages_wellPaged_flatten {α : Type} (qs : String) (n : Nat) :
    ∀ (pages : List (PageData α)) (c : Nat), wellPaged pages = true →
      (∀ p ∈ pages, p.edges ≠ []) →
      ∃ res, (fetchPagesT qs n (pages.map fun p => Except.ok (some p)) c).snd = Except.ok (some res)
        ∧ res.edges = (pages.map PageData.edges).flatten := by
  intro pages
  induction pages with
  | nil =>
    intro c hw _
    simp [wellPaged] at hw
  | cons p rest ih =>
    intro c hw hne
    cases rest with
    | nil =>
      have hp : p.hasNextPage = false := by
        simpa [wellPaged] using hw
      refine ⟨p, ?_, by simp⟩
      simp only [List.map_cons, List.map_nil]
      rw [fetchPagesT_cons_last qs n p [] c hp]
    | cons q rest2 =>
      have hp : p.hasNextPage = true := by
        have h := hw
        simp only [wellPaged, Bool.and_eq_true] at h
        exact h.1
      have hwrest : wellPaged (q :: rest2) = true := by
        have h := hw
        simp only [wellPaged, Bool.and_eq_true] at h
        exact h.2
      obtain ⟨res, hres, hedges⟩ := ih (c + 1) hwrest (fun x hx => hne x (by simp [hx]))
      have hpe : p.edges.isEmpty = false := isEmpty_false_of_ne_nil (hne p (by simp))
      have hre : res.edges.isEmpty = false := by
        refine isEmpty_false_of_ne_nil ?_
        rw [hedges]
        have hq : q.edges ≠ [] := hne q (by simp)
        simp only [List.map_cons, List.flatten_cons]
        intro hFlat
        exact hq (List.append_eq_nil.mp hFlat).1
      refine ⟨{ p with edges := p.edges ++ res.edges }, ?_, by simp [hedges]⟩
      simp only [List.map_cons] at hres ⊢
      rw [fetchPagesT_cons_next qs n p _ c hp]
      show Except.map (fun more => some (mergePages p more))
        (fetchPagesT qs n (Except.ok (some q) :: List.map (fun p => Except.ok (some p)) rest2) (c + 1)).snd = _
      rw [hres]
      simp [Except.map, mergePages, hpe, hre]

/-- Claim C2: when a paged source answers with at least one page, every
page reports `hasNextPage` until the last, and every page's record list is
non-empty, the paged runner returns the concatenation of all pages' record
lists in order — exactly the record list an equivalent single unpaginated
call returning the same records would produce. -/
theorem c2_paged_equals_single {α : Type} (qs : String) (n c : Nat) (pages : List (PageData α))
    (hw : wellPaged pages = true) (hne : ∀ p ∈ pages, p.edges ≠ []) :
    ∃ res, (fetchPagesT qs n (pages.map fun p => Except.ok (some p)) c).snd = Except.ok (some res)
      ∧ res.edges = (pages.map PageData.edges).flatten :=
  fetchPages_wellPaged_flatten qs n pages c hw hne

/-- Witness for C2: three pages with next-page flags set until the last;
the paged result is the in-order concatenation of all records. -/
theorem c2_paged_equals_single_witness :
    ∃ res, (fetchPagesT "q" 2
        (([⟨[1, 2], true⟩, ⟨[3], true⟩, ⟨[4], false⟩] : List (PageData Nat)).map
          fun p => Except.ok (some p)) 0).snd = Except.ok (some res)
      ∧ res.edges = (([⟨[1, 2], true⟩, ⟨[3], true⟩, ⟨[4], false⟩] : List (PageData Nat)).map
          PageData.edges).flatten :=
  c2_paged_equals_single "q" 2 0 [⟨[1, 2], true⟩, ⟨[3], true⟩, ⟨[4], false⟩]
    (by decide) (by decide)

theorem mergePages_edges_left_ne {α : Type} (g res : PageData α) (hg : g.edges ≠ []) :
    (mergePages g (some res)).edges = g.edges ++ res.edges := by
  by_cases hr : res.edges = []
  · simp [mergePages, hr]
  · simp [mergePages, isEmpty_false_of_ne_nil hg, isEmpty_false_of_ne_nil hr]

theorem fetchPagesT_all_ok {α : Type} (qs : String) (n : Nat) :
    ∀ (pages : List (PageData α)) (c : Nat),
      ∃ d, (fetchPagesT qs n (pages.map fun p => Except.ok (some p)) c).snd = Except.ok d := by
  intro pages
  induction pages with
  | nil =>
    intro c
    exact ⟨none, by simp [fetchPagesT]⟩
  | cons p rest ih =>
    intro c
    by_cases hp : p.hasNextPage = true
    · obtain ⟨d, hd⟩ := ih (c + 1)
      refine ⟨some (mergePages p d), ?_⟩
      simp only [List.map_cons]
      rw [fetchPagesT_cons_next qs n p _ c hp]
      show Except.map (fun more => some (mergePages p more))
        (fetchPagesT qs n (List.map (fun p => Except.ok (some p)) rest) (c + 1)).snd = _
      rw [hd]
      rfl
    · refine ⟨some p, ?_⟩
      simp only [List.map_cons]
      rw [fetchPagesT_cons_last qs n p _ c (Bool.not_eq_true _ ▸ hp)]

/-- Claim C9: in the paged fetcher the deeper recursive result is
concatenated onto the current page only when both edge lists are non-empty
(lines 83-90); hence when an intermediate page reports `hasNextPage` but
carries zero edges, every record of every subsequent page is silently
dropped: the overall result is exactly the concatenation of the pages
before the empty one. -/
theorem c9_empty_page_discards_rest {α : Type} (qs : String) (n : Nat) :
    ∀ (good : List (PageData α)) (bad : PageData α) (rest : List (PageData α)) (c : Nat),
      (∀ p ∈ good, p.hasNextPage = true ∧ p.edges ≠ []) →
      bad.hasNextPage = true → bad.edges = [] →
      ∃ res, (fetchPagesT qs n ((good ++ bad :: rest).map fun p => Except.ok (some p)) c).snd =
          Except.ok (some res)
        ∧ res.edges = (good.map PageData.edges).flatten := by
  intro good
  induction good with
  | nil =>
    intro bad rest c _ hbn hbe
    obtain ⟨d, hd⟩ := fetchPagesT_all_ok qs n rest (c + 1)
    refine ⟨mergePages bad d, ?_, ?_⟩
    · simp only [List.nil_append, List.map_cons]
      rw [fetchPagesT_cons_next qs n bad _ c hbn]
      show Except.map (fun more => some (mergePages bad more))
        (fetchPagesT qs n (List.map (fun p => Except.ok (some p)) rest) (c + 1)).snd = _
      rw [hd]
      rfl
    · have : mergePages bad d = bad := by
        cases d with
        | none => rfl
        | some m => simp [mergePages, hbe]
      rw [this, hbe]
      simp
  | cons g good ih =>
    intro bad rest c hgood hbn hbe
    obtain ⟨hgn, hge⟩ := hgood g (by simp)
    obtain ⟨res, hres, hedges⟩ := ih bad rest (c + 1) (fun x hx => hgood x (by simp [hx])) hbn hbe
    refine ⟨mergePages g (some res), ?_, ?_⟩
    · simp only [List.cons_append, List.map_cons] at hres ⊢
      rw [fetchPagesT_cons_next qs n g _ c hgn]
      show Except.map (fun more => some (mergePages g more))
        (fetchPagesT qs n
          (List.map (fun p => Except.ok (some p)) (good ++ bad :: rest)) (c + 1)).snd = _
      rw [hres]
      rfl
    · rw [mergePages_edges_left_ne g res hge, hedges]
      simp

/-- Witness for C9: page 1 has records [1, 2], page 2 is empty but still
reports a next page, page 3 has record [9]; the fetcher returns [1, 2] —
the record 9 is silently discarded. -/
theorem c9_empty_page_discards_rest_witness :
    ∃ res, (fetchPagesT "q" 2
        ((([⟨[1, 2], true⟩] : List (PageData Nat)) ++
            (⟨[], true⟩ : PageData Nat) :: ([⟨[9], false⟩] : List (PageData Nat))).map
          fun p => Except.ok (some p)) 0).snd = Except.ok (some res)
      ∧ res.edges = (([⟨[1, 2], true⟩] : List (PageData Nat)).map PageData.edges).flatten :=
  c9_empty_page_discards_rest "q" 2 [⟨[1, 2], true⟩] ⟨[], true⟩ [⟨[9], false⟩] 0
    (by decide) (by decide) (by decide)

theorem fetchPagesT_fst_head {α : Type} (qs : String) (n : Nat)
    (rs : List (Except String (Option (PageData α)))) (c : Nat) :
    (fetchPagesT qs n rs c).fst.head? = some (pagedRequest qs n c) := by
  cases rs with
  | nil => simp [fetchPagesT]
  | cons r rest =>
    cases r with
    | error e => simp [fetchPagesT]
    | ok od =>
      cases od with
      | none => simp [fetchPagesT]
      | some p =>
        by_cases hp : p.hasNextPage = true
        · rw [fetchPagesT_cons_next qs n p rest c hp]
          rfl
        · rw [fetchPagesT_cons_last qs n p rest c (Bool.not_eq_true _ ▸ hp)]
          rfl

/-- Claim C3: a query runs in paged mode if and only if its query string
textually contains all five pagination markers of lines 130-137 —
"hasNextPage", the parameter declarations "$limit:" and "$skip:", and
their uses "limit: $limit" and "skip: $skip".  In paged mode the first
request issued carries the pagination variables `{limit = n, skip = 0}`;
otherwise the runner issues exactly one request with no pagination
variables and uses its result as-is. -/
theorem c3_paged_mode_iff_markers {α : Type} (qs : String) (n : Nat)
    (rs : List (Except String (Option (PageData α))))
    (sr : Except String (Option (PageData α))) :
    (usesPagination qs = true ↔
      (SubstrHolds "hasNextPage" qs ∧ SubstrHolds "$limit:" qs ∧ SubstrHolds "$skip:" qs ∧
       SubstrHolds "limit: $limit" qs ∧ SubstrHolds "skip: $skip" qs))
    ∧ (usesPagination qs = true →
        (runOneQueryT qs n rs sr).fst.head? = some (pagedRequest qs n 0))
    ∧ (usesPagination qs = false →
        (runOneQueryT qs n rs sr).fst = [{ queryString := qs, params := none }]
        ∧ (runOneQueryT qs n rs sr).snd = sr) := by
  refine ⟨?_, ?_, ?_⟩
  · unfold usesPagination
    simp only [Bool.and_eq_true, containsSub_iff]
    tauto
  · intro hm
    unfold runOneQueryT
    rw [if_pos hm]
    have hHead := fetchPagesT_fst_head qs n rs 0
    cases hS : (fetchPagesT qs n rs 0).snd with
    | ok d => exact hHead
    | error e =>
      show ((fetchPagesT qs n rs 0).fst ++
          [({ queryString := qs, params := none } : JsRequest)]).head? = _
      cases hF : (fetchPagesT qs n rs 0).fst with
      | nil => rw [hF] at hHead; simp at hHead
      | cons a as =>
        rw [hF] at hHead
        simpa using hHead
  · intro hm
    unfold runOneQueryT
    rw [if_neg (by simp [hm])]
    exact ⟨rfl, rfl⟩

/-- Witness for C3 at two concrete query strings: one carrying all five
pagination markers (first request is paged with skip 0) and one carrying
none (exactly one unpaginated request whose response is used as-is). -/
theorem c3_paged_mode_iff_markers_witness :
    (runOneQueryT "query getContent($limit: Int, $skip: Int) hasNextPage limit: $limit skip: $skip"
        5 ([] : List (Except String (Option (PageData Nat)))) (Except.ok none)).fst.head? =
      some (pagedRequest
        "query getContent($limit: Int, $skip: Int) hasNextPage limit: $limit skip: $skip" 5 0)
    ∧ (runOneQueryT "plain" 5 ([] : List (Except String (Option (PageData Nat))))
        (Except.ok none)).fst = [{ queryString := "plain", params := none }] :=
  ⟨(c3_paged_mode_iff_markers
      "query getContent($limit: Int, $skip: Int) hasNextPage limit: $limit skip: $skip"
      5 [] (Except.ok none)).2.1 (by decide),
   ((c3_paged_mode_iff_markers "plain" 5 [] (Except.ok none)).2.2 (by decide)).1⟩

theorem runOneQueryT_paged_error_snd {α : Type} (qs : String) (ps : Nat)
    (rs : List (Except String (Option (PageData α)))) (sr : Except String (Option (PageData α)))
    (e : String) (hm : usesPagination qs = true)
    (hf : (fetchPagesT qs ps rs 0).snd = Except.error e) :
    (runOneQueryT qs ps rs sr).snd = sr := by
  unfold runOneQueryT
  rw [if_pos hm, hf]

/-- Claim C4: when any error is raised while paging a marker query, the
runner falls back to one single unpaginated request for that query only —
its result is used for that query, and the remaining queries are processed
exactly as before; if the fallback request itself fails, the error escapes
`runQueriesSequentially` (rethrown via `throw new Error(error)`) and is
fatal for the whole build. -/
theorem c4_paging_error_fallback {α : Type} (h : HandlerModel α) (ps : Nat)
    (k qs : String) (rest : List (String × String)) (e : String)
    (hm : usesPagination qs = true)
    (hf : (fetchPagesT qs ps (h.paged qs) 0).snd = Except.error e) :
    (∀ v, h.single qs = Except.ok v →
      (runOneQueryT qs ps (h.paged qs) (h.single qs)).snd = Except.ok v)
    ∧ (∀ v, h.single qs = Except.ok v →
      runQueriesSeqGo h ps ((k, qs) :: rest) =
        Except.map (fun l => (k, v) :: l) (runQueriesSeqGo h ps rest))
    ∧ (∀ e2, h.single qs = Except.error e2 →
      runQueriesSequentially h ps ((k, qs) :: rest) = Except.error (seqWrap e2)) := by
  have hsnd : (runOneQueryT qs ps (h.paged qs) (h.single qs)).snd = h.single qs :=
    runOneQueryT_paged_error_snd qs ps (h.paged qs) (h.single qs) e hm hf
  refine ⟨?_, ?_, ?_⟩
  · intro v hv
    rw [hsnd, hv]
  · intro v hv
    show (do
      let d ← (runOneQueryT qs ps (h.paged qs) (h.single qs)).snd
      let r ← runQueriesSeqGo h ps rest
      Except.ok ((k, d) :: r)) = _
    rw [hsnd, hv]
    cases hR : runQueriesSeqGo h ps rest with
    | ok l => rfl
    | error e3 => rfl
  · intro e2 hv
    have hgo : runQueriesSeqGo h ps ((k, qs) :: rest) = Except.error e2 := by
      show (do
        let d ← (runOneQueryT qs ps (h.paged qs) (h.single qs)).snd
        let r ← runQueriesSeqGo h ps rest
        Except.ok ((k, d) :: r)) = _
      rw [hsnd, hv]
      rfl
    unfold runQueriesSequentially
    rw [hgo]

/-- Witness for C4: a paged source that rejects its first paged request;
the runner falls back to the single unpaginated response [7]. -/
theorem c4_paging_error_fallback_witness :
    (runOneQueryT "query getContent($limit: Int, $skip: Int) hasNextPage limit: $limit skip: $skip"
        3
        (HandlerModel.paged
          ⟨fun _ => [Except.error "nope"], fun _ => Except.ok (some (⟨[7], false⟩ : PageData Nat))⟩
          "query getContent($limit: Int, $skip: Int) hasNextPage limit: $limit skip: $skip")
        (HandlerModel.single
          ⟨fun _ => [Except.error "nope"], fun _ => Except.ok (some (⟨[7], false⟩ : PageData Nat))⟩
          "query getContent($limit: Int, $skip: Int) hasNextPage limit: $limit skip: $skip")).snd =
      Except.ok (some (⟨[7], false⟩ : PageData Nat)) :=
  (c4_paging_error_fallback
    ⟨fun _ => [Except.error "nope"], fun _ => Except.ok (some (⟨[7], false⟩ : PageData Nat))⟩
    3 "k" "query getContent($limit: Int, $skip: Int) hasNextPage limit: $limit skip: $skip"
    [] "nope" (by decide) rfl).1 (some ⟨[7], false⟩) rfl
